import Mathlib

/-!
Verification of the numeric core of the `euler-manim-visualizations` repository.

The repository's reusable logic consists of a handful of pure numeric helpers
used to drive the animations:

* `get_slope_angle` (`src/01_ExponentialSlopes.py`): arctangent of a forward
  finite-difference slope with step `1e-6`;
* `get_val` / `get_slope` (`src/02_EulerNumber.py`): value `a ** x` and analytic
  derivative `log(a) * a ** x` of an exponential;
* the phasor endpoint `np.exp(1j * θ)` (`src/03_ComplexJRotation.py`,
  `src/04_EulerLiveVisualization.py`);
* `get_current_color` (`src/03_ComplexJRotation.py`): four-segment linear color
  interpolation keyed by `θ % 2π`;
* the `y_a` ordinate of `get_slope_line1` (`src/01_ExponentialSlopes.py`).

The Python floats are modelled by real numbers; Python's float modulo is
modelled by `realMod` below.
-/

namespace EulerViz

open Real

/-- `get_slope_angle` from `01_ExponentialSlopes.py`: the angle of the tangent
line, computed as `arctan` of the forward finite difference
`(fun(x + 1e-6) - fun(x)) / 1e-6`. -/
noncomputable def get_slope_angle (f : ℝ → ℝ) (x : ℝ) : ℝ :=
  Real.arctan ((f (x + 1e-6) - f x) / 1e-6)

/-- `get_val` from `02_EulerNumber.py`: the current function value
`a_tracker ** x_tracker`. -/
noncomputable def get_val (a x : ℝ) : ℝ := a ^ x

/-- `get_slope` from `02_EulerNumber.py`: the current derivative value
`np.log(a_tracker) * a_tracker ** x_tracker`. -/
noncomputable def get_slope (a x : ℝ) : ℝ := Real.log a * a ^ x

/-- The endpoint of the phasor arrow in `03_ComplexJRotation.py` (also the
rotating `vector` of `04_EulerLiveVisualization.py`): the real and imaginary
parts of `np.exp(1j * θ)`. -/
noncomputable def phasor (θ : ℝ) : ℝ × ℝ :=
  ((Complex.exp (Complex.I * (θ : ℂ))).re, (Complex.exp (Complex.I * (θ : ℂ))).im)

/-- An RGB color with real-valued channels. -/
@[ext]
structure RGB where
  r : ℝ
  g : ℝ
  b : ℝ

/-- Manim's `BLUE` anchor color `#58C4DD`, channels scaled to `[0, 1]`. -/
noncomputable def BLUE : RGB := ⟨88 / 255, 196 / 255, 221 / 255⟩

/-- Manim's `GREEN` anchor color `#83C167`, channels scaled to `[0, 1]`. -/
noncomputable def GREEN : RGB := ⟨131 / 255, 193 / 255, 103 / 255⟩

/-- Manim's `RED` anchor color `#FC6255`, channels scaled to `[0, 1]`. -/
noncomputable def RED : RGB := ⟨252 / 255, 98 / 255, 85 / 255⟩

/-- Manim's `PURPLE` anchor color `#9A72AC`, channels scaled to `[0, 1]`. -/
noncomputable def PURPLE : RGB := ⟨154 / 255, 114 / 255, 172 / 255⟩

/-- Manim's `interpolate_color`: channelwise linear interpolation
`(1 - alpha) * start + alpha * end`. -/
noncomputable def interpolate_color (c1 c2 : RGB) (alpha : ℝ) : RGB :=
  ⟨(1 - alpha) * c1.r + alpha * c2.r,
   (1 - alpha) * c1.g + alpha * c2.g,
   (1 - alpha) * c1.b + alpha * c2.b⟩

/-- Python's float modulo `x % y` for `y > 0`: `x - y * ⌊x / y⌋`, which lands
in `[0, y)` (taking the sign of the divisor, also for negative `x`). -/
noncomputable def realMod (x y : ℝ) : ℝ := x - y * ⌊x / y⌋

/-- `get_current_color` from `03_ComplexJRotation.py`: wrap the angle to
`[0, 2π)` and interpolate across four quadrant segments
BLUE→GREEN→RED→PURPLE→BLUE. -/
noncomputable def get_current_color (angle : ℝ) : RGB :=
  if realMod angle (2 * π) ≤ π / 2 then
    interpolate_color BLUE GREEN (realMod angle (2 * π) / (π / 2))
  else if realMod angle (2 * π) ≤ π then
    interpolate_color GREEN RED ((realMod angle (2 * π) - π / 2) / (π / 2))
  else if realMod angle (2 * π) ≤ 3 * π / 2 then
    interpolate_color RED PURPLE ((realMod angle (2 * π) - π) / (π / 2))
  else
    interpolate_color PURPLE BLUE ((realMod angle (2 * π) - 3 * π / 2) / (π / 2))

/-- The interpolation fraction that `get_current_color` passes to
`interpolate_color` in whichever branch it takes. -/
noncomputable def branchFraction (angle : ℝ) : ℝ :=
  if realMod angle (2 * π) ≤ π / 2 then
    realMod angle (2 * π) / (π / 2)
  else if realMod angle (2 * π) ≤ π then
    (realMod angle (2 * π) - π / 2) / (π / 2)
  else if realMod angle (2 * π) ≤ 3 * π / 2 then
    (realMod angle (2 * π) - π) / (π / 2)
  else
    (realMod angle (2 * π) - 3 * π / 2) / (π / 2)

/-- The `y_a` ordinate computed by `get_slope_line1` in
`01_ExponentialSlopes.py`: `np.tan(get_slope_angle(fun, x)) + fun(x)`. -/
noncomputable def slope_line1_y_a (f : ℝ → ℝ) (x : ℝ) : ℝ :=
  Real.tan (get_slope_angle f x) + f x

/-- Follows the spec's words (§4.4 Phase Color Mapper): reduce `θ` into
`[0, 2π)` via modulo, pick the segment of width `π / 2` that contains the
reduced angle (segment `k` starting at `k * π / 2`), and interpolate the pair
of anchor colors of that segment with fraction
`(θ_reduced - segment_start) / (π / 2)`. -/
noncomputable def phaseColorSpec (θ : ℝ) : RGB :=
  if realMod θ (2 * π) < π / 2 then
    interpolate_color BLUE GREEN (realMod θ (2 * π) / (π / 2))
  else if realMod θ (2 * π) < π then
    interpolate_color GREEN RED ((realMod θ (2 * π) - π / 2) / (π / 2))
  else if realMod θ (2 * π) < 3 * π / 2 then
    interpolate_color RED PURPLE ((realMod θ (2 * π) - π) / (π / 2))
  else
    interpolate_color PURPLE BLUE ((realMod θ (2 * π) - 3 * π / 2) / (π / 2))

/-! Basic helper lemmas shared by the proofs below. -/

/-- Interpolating with fraction `0` returns the first color exactly. -/
theorem interpolate_color_zero (c1 c2 : RGB) : interpolate_color c1 c2 0 = c1 := by
  unfold interpolate_color
  ext <;> ring

/-- Interpolating with fraction `1` returns the second color exactly. -/
theorem interpolate_color_one (c1 c2 : RGB) : interpolate_color c1 c2 1 = c2 := by
  unfold interpolate_color
  ext <;> ring

/-- The phasor endpoint is `(cos θ, sin θ)`. -/
theorem phasor_eq_cos_sin (θ : ℝ) : phasor θ = (Real.cos θ, Real.sin θ) := by
  unfold phasor
  rw [mul_comm, Complex.exp_ofReal_mul_I_re, Complex.exp_ofReal_mul_I_im]

/-- `realMod` is nonnegative when the divisor is positive. -/
theorem realMod_nonneg {y : ℝ} (hy : 0 < y) (x : ℝ) : 0 ≤ realMod x y := by
  unfold realMod
  have h : ((⌊x / y⌋ : ℤ) : ℝ) ≤ x / y := Int.floor_le (x / y)
  have h2 : ((⌊x / y⌋ : ℤ) : ℝ) * y ≤ x := (le_div_iff hy).mp h
  linarith

/-- `realMod` is below a positive divisor. -/
theorem realMod_lt {y : ℝ} (hy : 0 < y) (x : ℝ) : realMod x y < y := by
  unfold realMod
  have h : x / y < ((⌊x / y⌋ : ℤ) : ℝ) + 1 := Int.lt_floor_add_one (x / y)
  have h2 : x < (((⌊x / y⌋ : ℤ) : ℝ) + 1) * y := (div_lt_iff hy).mp h
  nlinarith

/-- `realMod` fixes arguments already in `[0, y)`. -/
theorem realMod_eq_self {x y : ℝ} (hy : 0 < y) (h0 : 0 ≤ x) (hxy : x < y) :
    realMod x y = x := by
  unfold realMod
  have hfloor : ⌊x / y⌋ = 0 := by
    rw [Int.floor_eq_zero_iff]
    constructor
    · positivity
    · rw [div_lt_one hy]
      exact hxy
  rw [hfloor]
  simp

/-- Adding the divisor does not change `realMod`. -/
theorem realMod_add_self {y : ℝ} (hy : y ≠ 0) (x : ℝ) : realMod (x + y) y = realMod x y := by
  unfold realMod
  have : (x + y) / y = x / y + 1 := by
    field_simp
  rw [this, Int.floor_add_one]
  push_cast
  ring

/-! Claims. -/

/-- C1: at base `e` (Euler's number) the exponential evaluator's value
`a ** x` and derivative `log(a) * a ** x` coincide for every `x` — exactly in
the real-number model, hence in particular within `1e-9` relative tolerance. -/
theorem euler_base_val_eq_slope (x : ℝ) :
    get_val (Real.exp 1) x = get_slope (Real.exp 1) x ∧
    |get_val (Real.exp 1) x - get_slope (Real.exp 1) x| ≤ 1e-9 * |get_val (Real.exp 1) x| := by
  have h : Real.log (Real.exp 1) = 1 := Real.log_exp 1
  have heq : get_val (Real.exp 1) x = get_slope (Real.exp 1) x := by
    unfold get_val get_slope
    rw [h, one_mul]
  refine ⟨heq, ?_⟩
  rw [heq, sub_self, abs_zero]
  positivity

/-- C2: `get_slope_angle` returns the arctangent of the forward
finite-difference slope with step `h = 1e-6`, and the returned angle lies in
the open interval `(-π/2, π/2)`. -/
theorem get_slope_angle_spec (f : ℝ → ℝ) (x : ℝ) :
    get_slope_angle f x = Real.arctan ((f (x + 1e-6) - f x) / 1e-6) ∧
    -(π / 2) < get_slope_angle f x ∧ get_slope_angle f x < π / 2 :=
  ⟨rfl, Real.neg_pi_div_two_lt_arctan _, Real.arctan_lt_pi_div_two _⟩

/-- C3: for every base `> 0`, `≠ 1` and every `x`, the exponential evaluator
returns the pair `(base ^ x, log base * base ^ x)`; in particular at `x = 0`
it returns `(1, log 2)` for base `2` and `(1, log 3)` for base `3`. -/
theorem exp_value_and_derivative_spec (base x : ℝ) (hb : 0 < base) (hb1 : base ≠ 1) :
    (get_val base x = base ^ x ∧ get_slope base x = Real.log base * base ^ x) ∧
    get_val 2 0 = 1 ∧ get_slope 2 0 = Real.log 2 ∧
    get_val 3 0 = 1 ∧ get_slope 3 0 = Real.log 3 := by
  refine ⟨⟨rfl, rfl⟩, ?_, ?_, ?_, ?_⟩ <;> simp [get_val, get_slope]

/-- Witness for C3 at `base = 2`, `x = 0`. -/
theorem exp_value_and_derivative_spec_witness :
    (get_val 2 0 = (2 : ℝ) ^ (0 : ℝ) ∧ get_slope 2 0 = Real.log 2 * (2 : ℝ) ^ (0 : ℝ)) ∧
    get_val 2 0 = 1 ∧ get_slope 2 0 = Real.log 2 ∧
    get_val 3 0 = 1 ∧ get_slope 3 0 = Real.log 3 :=
  exp_value_and_derivative_spec 2 0 (by norm_num) (by norm_num)

/-- C7: the phasor endpoint always lies on the unit circle — exactly in the
real-number model, hence in particular within `1e-9`. -/
theorem phasor_on_unit_circle (θ : ℝ) :
    (phasor θ).1 ^ 2 + (phasor θ).2 ^ 2 = 1 ∧
    |(phasor θ).1 ^ 2 + (phasor θ).2 ^ 2 - 1| ≤ 1e-9 := by
  have h : (phasor θ).1 ^ 2 + (phasor θ).2 ^ 2 = 1 := by
    rw [phasor_eq_cos_sin]
    exact Real.cos_sq_add_sin_sq θ
  refine ⟨h, ?_⟩
  rw [h, sub_self, abs_zero]
  norm_num

/-- C10: in the slope-triangle construction `get_slope_line1`, the vertical
rise `y_a - fun(x)` equals the forward finite-difference slope
`(fun(x + 1e-6) - fun(x)) / 1e-6` exactly, by the `tan`-after-`arctan`
round-trip. -/
theorem slope_line1_rise_eq_difference_quotient (f : ℝ → ℝ) (x : ℝ) :
    slope_line1_y_a f x - f x = (f (x + 1e-6) - f x) / 1e-6 := by
  unfold slope_line1_y_a get_slope_angle
  rw [add_sub_cancel_right, Real.tan_arctan]

/-- C8: the phasor endpoint is periodic with period `2π`; at `θ = k * π / 2`
for every integer `k` it lands exactly on one of the four points
`(1,0), (0,1), (-1,0), (0,-1)`; and at `0, π/2, π, 3π/2` it takes the four
listed values (the `1, j, -1, -j` cycle). -/
theorem phasor_cycle :
    (∀ θ : ℝ, phasor (θ + 2 * π) = phasor θ) ∧
    (∀ k : ℤ, phasor (k * (π / 2)) = (1, 0) ∨ phasor (k * (π / 2)) = (0, 1) ∨
      phasor (k * (π / 2)) = (-1, 0) ∨ phasor (k * (π / 2)) = (0, -1)) ∧
    phasor 0 = (1, 0) ∧ phasor (π / 2) = (0, 1) ∧
    phasor π = (-1, 0) ∧ phasor (3 * π / 2) = (0, -1) := by
  have h0 : phasor 0 = (1, 0) := by
    rw [phasor_eq_cos_sin]
    norm_num
  have h1 : phasor (π / 2) = (0, 1) := by
    rw [phasor_eq_cos_sin, Real.cos_pi_div_two, Real.sin_pi_div_two]
  have h2 : phasor π = (-1, 0) := by
    rw [phasor_eq_cos_sin, Real.cos_pi, Real.sin_pi]
  have h3 : phasor (3 * π / 2) = (0, -1) := by
    have e : 3 * π / 2 = π / 2 + π := by ring
    rw [phasor_eq_cos_sin, e, Real.cos_add_pi, Real.sin_add_pi,
      Real.cos_pi_div_two, Real.sin_pi_div_two]
    norm_num
  have hper : ∀ θ : ℝ, phasor (θ + 2 * π) = phasor θ := by
    intro θ
    rw [phasor_eq_cos_sin, phasor_eq_cos_sin, Real.cos_add_two_pi, Real.sin_add_two_pi]
  refine ⟨hper, ?_, h0, h1, h2, h3⟩
  intro k
  obtain ⟨q, r, hr0, hr4, hk⟩ : ∃ q r : ℤ, 0 ≤ r ∧ r < 4 ∧ k = 4 * q + r :=
    ⟨k / 4, k % 4, Int.emod_nonneg k (by norm_num), Int.emod_lt_of_pos k (by norm_num),
      (Int.ediv_add_emod k 4).symm⟩
  have hangle : (k : ℝ) * (π / 2) = (r : ℝ) * (π / 2) + q * (2 * π) := by
    rw [hk]
    push_cast
    ring
  have hred : phasor (k * (π / 2)) = phasor (r * (π / 2)) := by
    rw [hangle, phasor_eq_cos_sin, phasor_eq_cos_sin,
      Real.cos_add_int_mul_two_pi, Real.sin_add_int_mul_two_pi]
  interval_cases r
  · left
    have e : ((0 : ℤ) : ℝ) * (π / 2) = 0 := by push_cast; ring
    rw [hred, e]
    exact h0
  · right; left
    have e : ((1 : ℤ) : ℝ) * (π / 2) = π / 2 := by push_cast; ring
    rw [hred, e]
    exact h1
  · right; right; left
    have e : ((2 : ℤ) : ℝ) * (π / 2) = π := by push_cast; ring
    rw [hred, e]
    exact h2
  · right; right; right
    have e : ((3 : ℤ) : ℝ) * (π / 2) = 3 * π / 2 := by push_cast; ring
    rw [hred, e]
    exact h3

/-- C5: `get_current_color` agrees everywhere with the spec's description of
the phase color mapper (`phaseColorSpec`): reduce modulo `2π`, split into four
half-open segments of width `π / 2`, and interpolate the segment's anchor pair
linearly with fraction `(θ_reduced - segment_start) / (π / 2)`. The two
definitions place exact segment boundaries in different branches, but the
interpolated values coincide there. -/
theorem get_current_color_eq_spec (θ : ℝ) : get_current_color θ = phaseColorSpec θ := by
  have hpi := Real.pi_pos
  have hpi2 : (0 : ℝ) < π / 2 := by positivity
  unfold get_current_color phaseColorSpec
  set m := realMod θ (2 * π) with hmdef
  rcases lt_trichotomy m (π / 2) with hA | hA | hA
  · rw [if_pos hA.le, if_pos hA]
  · rw [if_pos hA.le, if_neg (not_lt.mpr hA.ge), if_pos (by rw [hA]; linarith)]
    rw [hA, div_self hpi2.ne', sub_self, zero_div,
      interpolate_color_one, interpolate_color_zero]
  · rw [if_neg (not_le.mpr hA), if_neg (not_lt.mpr hA.le)]
    rcases lt_trichotomy m π with hB | hB | hB
    · rw [if_pos hB.le, if_pos hB]
    · rw [if_pos hB.le, if_neg (not_lt.mpr hB.ge), if_pos (by rw [hB]; linarith)]
      rw [hB, show π - π / 2 = π / 2 by ring, div_self hpi2.ne', sub_self, zero_div,
        interpolate_color_one, interpolate_color_zero]
    · rw [if_neg (not_le.mpr hB), if_neg (not_lt.mpr hB.le)]
      rcases lt_trichotomy m (3 * π / 2) with hC | hC | hC
      · rw [if_pos hC.le, if_pos hC]
      · rw [if_pos hC.le, if_neg (not_lt.mpr hC.ge)]
        rw [hC, show 3 * π / 2 - π = π / 2 by ring, div_self hpi2.ne', sub_self, zero_div,
          interpolate_color_one, interpolate_color_zero]
      · rw [if_neg (not_le.mpr hC), if_neg (not_lt.mpr hC.le)]

/-- C6: `get_current_color` hits the anchor colors exactly at the segment
boundaries `0, π/2, π, 3π/2`, is `2π`-periodic (in particular
`get_current_color (2π) = get_current_color 0`), and the wraparound is
seamless: the segment-3 branch at fraction `1` and the segment-0 branch at
fraction `0` both produce BLUE. -/
theorem phase_color_boundaries :
    get_current_color 0 = BLUE ∧
    get_current_color (π / 2) = GREEN ∧
    get_current_color π = RED ∧
    get_current_color (3 * π / 2) = PURPLE ∧
    get_current_color (2 * π) = get_current_color 0 ∧
    (∀ θ : ℝ, get_current_color (θ + 2 * π) = get_current_color θ) ∧
    interpolate_color PURPLE BLUE 1 = interpolate_color BLUE GREEN 0 := by
  have hpi := Real.pi_pos
  have h2pi : (0 : ℝ) < 2 * π := by positivity
  have hpi2 : (0 : ℝ) < π / 2 := by positivity
  refine ⟨?_, ?_, ?_, ?_, ?_, ?_, ?_⟩
  · unfold get_current_color
    rw [realMod_eq_self h2pi le_rfl h2pi, if_pos hpi2.le, zero_div, interpolate_color_zero]
  · unfold get_current_color
    rw [realMod_eq_self h2pi hpi2.le (by linarith), if_pos le_rfl, div_self hpi2.ne',
      interpolate_color_one]
  · unfold get_current_color
    rw [realMod_eq_self h2pi hpi.le (by linarith), if_neg (by linarith), if_pos le_rfl,
      show π - π / 2 = π / 2 by ring, div_self hpi2.ne', interpolate_color_one]
  · unfold get_current_color
    rw [realMod_eq_self h2pi (by linarith) (by linarith), if_neg (by linarith),
      if_neg (by linarith), if_pos le_rfl,
      show 3 * π / 2 - π = π / 2 by ring, div_self hpi2.ne', interpolate_color_one]
  · have hmod : realMod (2 * π) (2 * π) = realMod 0 (2 * π) := by
      have h := realMod_add_self (y := 2 * π) h2pi.ne' 0
      rwa [zero_add] at h
    unfold get_current_color
    rw [hmod]
  · intro θ
    unfold get_current_color
    rw [realMod_add_self h2pi.ne']
  · rw [interpolate_color_one, interpolate_color_zero]

/-- C9: totality of the color mapper's arithmetic in the real-number model:
the wrapped angle `realMod θ (2π)` lies in `[0, 2π)` for every real `θ`
(including negative ones), the interpolation fraction handed to
`interpolate_color` always lies in `[0, 1]`, and every angle is covered by one
of the four branches (so `get_current_color` always returns an interpolation
of two anchor colors at that fraction). -/
theorem color_mapper_total :
    (∀ θ : ℝ, 0 ≤ realMod θ (2 * π) ∧ realMod θ (2 * π) < 2 * π) ∧
    (∀ θ : ℝ, 0 ≤ branchFraction θ ∧ branchFraction θ ≤ 1) ∧
    (∀ θ : ℝ, ∃ c1 c2 : RGB, get_current_color θ = interpolate_color c1 c2 (branchFraction θ)) := by
  have hpi := Real.pi_pos
  have h2pi : (0 : ℝ) < 2 * π := by positivity
  have hpi2 : (0 : ℝ) < π / 2 := by positivity
  refine ⟨fun θ => ⟨realMod_nonneg h2pi θ, realMod_lt h2pi θ⟩, fun θ => ?_, fun θ => ?_⟩
  · have hm0 := realMod_nonneg h2pi θ
    have hm2 := realMod_lt h2pi θ
    unfold branchFraction
    split_ifs with hA hB hC
    · exact ⟨div_nonneg hm0 hpi2.le, by rw [div_le_one hpi2]; exact hA⟩
    · push_neg at hA
      exact ⟨div_nonneg (by linarith) hpi2.le, by rw [div_le_one hpi2]; linarith⟩
    · push_neg at hB
      exact ⟨div_nonneg (by linarith) hpi2.le, by rw [div_le_one hpi2]; linarith⟩
    · push_neg at hC
      exact ⟨div_nonneg (by linarith) hpi2.le, by rw [div_le_one hpi2]; linarith⟩
  · unfold get_current_color branchFraction
    split_ifs <;> exact ⟨_, _, rfl⟩

/-- `arctan` is 1-Lipschitz: its derivative `1 / (1 + x ^ 2)` is bounded by `1`. -/
theorem abs_arctan_sub_arctan_le (a b : ℝ) :
    |Real.arctan a - Real.arctan b| ≤ |a - b| := by
  have bound : ∀ x : ℝ, ‖(1 : ℝ) / (1 + x ^ 2)‖ ≤ 1 := by
    intro x
    have h1 : (0 : ℝ) < 1 + x ^ 2 := by positivity
    rw [Real.norm_eq_abs, abs_of_pos (by positivity), div_le_one h1]
    nlinarith [sq_nonneg x]
  have key := Convex.norm_image_sub_le_of_norm_hasDerivWithin_le
    (fun x _ => (Real.hasDerivAt_arctan x).hasDerivWithinAt)
    (fun x _ => bound x) convex_univ (Set.mem_univ b) (Set.mem_univ a)
  simpa [Real.norm_eq_abs] using key

/-- Numeric bound `log 3 < 1.1`, via `e ^ 11 > 3 ^ 10`. -/
theorem log_three_lt : Real.log 3 < 1.1 := by
  rw [Real.log_lt_iff_lt_exp (by norm_num)]
  have h1 : Real.exp 1.1 ^ (10 : ℕ) = Real.exp 11 := by
    rw [← Real.exp_nat_mul]
    norm_num
  have h2 : Real.exp 11 = Real.exp 1 ^ (11 : ℕ) := by
    rw [← Real.exp_nat_mul]
    norm_num
  have h3 : (2.7182818283 : ℝ) ^ (11 : ℕ) < Real.exp 1 ^ (11 : ℕ) :=
    pow_lt_pow_left Real.exp_one_gt_d9 (by norm_num) (by norm_num)
  have h4 : (3 : ℝ) ^ (10 : ℕ) < (2.7182818283 : ℝ) ^ (11 : ℕ) := by norm_num
  have h5 : (3 : ℝ) ^ (10 : ℕ) < Real.exp 1.1 ^ (10 : ℕ) := by
    rw [h1, h2]
    exact h4.trans h3
  exact lt_of_pow_lt_pow_left 10 (Real.exp_pos _).le h5

/-- C4 counterexample: the claim fails when quantified over every real base.
At base `exp (10 ^ 7)` and `x = -2.1e-6` the finite-difference chord over
`[x, x + 1e-6]` is far steeper than the analytic tangent (slope `≥ 1` versus
`≤ 0.01`), so the two arctangents differ by more than `π/4 - 0.01 > 1e-4`. -/
theorem slope_angle_tolerance_counterexample :
    ¬ (|get_slope_angle (fun y => Real.exp 10000000 ^ y) (-2.1e-6)
        - Real.arctan (get_slope (Real.exp 10000000) (-2.1e-6))| < 1e-4) := by
  have hb0 : (0 : ℝ) < Real.exp 10000000 := Real.exp_pos _
  have hfx1 : Real.exp 10000000 ^ ((-2.1e-6 : ℝ) + 1e-6) = Real.exp (-11) := by
    rw [Real.rpow_def_of_pos hb0, Real.log_exp]
    norm_num
  have hfx0 : Real.exp 10000000 ^ (-2.1e-6 : ℝ) = Real.exp (-21) := by
    rw [Real.rpow_def_of_pos hb0, Real.log_exp]
    norm_num
  have hslope : get_slope (Real.exp 10000000) (-2.1e-6) = 10000000 * Real.exp (-21) := by
    unfold get_slope
    rw [Real.log_exp, hfx0]
  have hunfold : get_slope_angle (fun y => Real.exp 10000000 ^ y) (-2.1e-6)
      = Real.arctan ((Real.exp (-11) - Real.exp (-21)) / 1e-6) := by
    show Real.arctan ((Real.exp 10000000 ^ ((-2.1e-6 : ℝ) + 1e-6)
        - Real.exp 10000000 ^ (-2.1e-6 : ℝ)) / 1e-6) = _
    rw [hfx1, hfx0]
  have he11 : Real.exp 11 < 60000 := by
    have h1 : Real.exp 11 = Real.exp 1 ^ (11 : ℕ) := by
      rw [← Real.exp_nat_mul]
      norm_num
    have h2 : Real.exp 1 ^ (11 : ℕ) < (2.7182818286 : ℝ) ^ (11 : ℕ) :=
      pow_lt_pow_left Real.exp_one_lt_d9 (Real.exp_pos 1).le (by norm_num)
    have h3 : (2.7182818286 : ℝ) ^ (11 : ℕ) < 60000 := by norm_num
    rw [h1]
    linarith
  have he21 : (1000000000 : ℝ) < Real.exp 21 := by
    have h1 : Real.exp 21 = Real.exp 1 ^ (21 : ℕ) := by
      rw [← Real.exp_nat_mul]
      norm_num
    have h2 : (2.7182818283 : ℝ) ^ (21 : ℕ) < Real.exp 1 ^ (21 : ℕ) :=
      pow_lt_pow_left Real.exp_one_gt_d9 (by norm_num) (by norm_num)
    have h3 : (1000000000 : ℝ) < (2.7182818283 : ℝ) ^ (21 : ℕ) := by norm_num
    rw [h1]
    linarith
  have hem11 : (1 / 60000 : ℝ) ≤ Real.exp (-11) := by
    rw [Real.exp_neg, ← one_div]
    exact one_div_le_one_div_of_le (Real.exp_pos 11) he11.le
  have hem21 : Real.exp (-21) ≤ 1e-9 := by
    have h := one_div_le_one_div_of_le (by norm_num : (0 : ℝ) < 1000000000) he21.le
    rw [Real.exp_neg, ← one_div]
    calc 1 / Real.exp 21 ≤ 1 / 1000000000 := h
      _ = 1e-9 := by norm_num
  have hs1 : (1 : ℝ) ≤ (Real.exp (-11) - Real.exp (-21)) / 1e-6 := by
    rw [le_div_iff (by norm_num : (0 : ℝ) < 1e-6)]
    have h : (1 : ℝ) * 1e-6 ≤ 1 / 60000 - 1e-9 := by norm_num
    linarith
  have hs2pos : (0 : ℝ) < 10000000 * Real.exp (-21) := by positivity
  have hs2 : (10000000 : ℝ) * Real.exp (-21) ≤ 0.01 := by
    have h : (10000000 : ℝ) * 1e-9 = 0.01 := by norm_num
    nlinarith
  have ha1 : π / 4 ≤ Real.arctan ((Real.exp (-11) - Real.exp (-21)) / 1e-6) := by
    rw [← Real.arctan_one]
    exact Real.arctan_strictMono.monotone hs1
  have ha2 : Real.arctan (10000000 * Real.exp (-21)) ≤ 0.01 := by
    have h := abs_arctan_sub_arctan_le (10000000 * Real.exp (-21)) 0
    rw [Real.arctan_zero, sub_zero, sub_zero] at h
    have h2 : Real.arctan (10000000 * Real.exp (-21)) ≤ |10000000 * Real.exp (-21)| :=
      (le_abs_self _).trans h
    rw [abs_of_pos hs2pos] at h2
    linarith
  intro hcontra
  rw [hunfold, hslope] at hcontra
  have hpi := Real.pi_gt_three
  have habs := le_abs_self (Real.arctan ((Real.exp (-11) - Real.exp (-21)) / 1e-6)
      - Real.arctan (10000000 * Real.exp (-21)))
  have hnum : (3 : ℝ) / 4 - 0.01 > 1e-4 := by norm_num
  linarith

/-- C4 (amended): restricted to the bases the animation actually plots
(`2` and `3`) and the plotted x-domain `[-2.5, 3.5]`, the finite-difference
slope angle agrees with the arctangent of the analytic derivative to within
`1e-4`. -/
theorem slope_angle_close_to_analytic (b x : ℝ)
    (hb : b = 2 ∨ b = 3) (hx1 : -2.5 ≤ x) (hx2 : x ≤ 3.5) :
    |get_slope_angle (fun y => b ^ y) x - Real.arctan (get_slope b x)| < 1e-4 := by
  have hb0 : (0 : ℝ) < b := by rcases hb with h | h <;> rw [h] <;> norm_num
  have hb1 : (1 : ℝ) ≤ b := by rcases hb with h | h <;> rw [h] <;> norm_num
  have hb3 : b ≤ 3 := by rcases hb with h | h <;> rw [h] <;> norm_num
  have hc0 : 0 ≤ Real.log b := Real.log_nonneg hb1
  have hc1 : Real.log b ≤ 1.1 := by
    have h := (Real.log_le_log_iff hb0 (by norm_num)).mpr hb3
    linarith [log_three_lt]
  have hbx0 : (0 : ℝ) < b ^ x := Real.rpow_pos_of_pos hb0 x
  have hbx47 : b ^ x ≤ 47 := by
    have h1 : b ^ x ≤ b ^ (3.5 : ℝ) := Real.rpow_le_rpow_of_exponent_le hb1 hx2
    have h2 : b ^ (3.5 : ℝ) ≤ (3 : ℝ) ^ (3.5 : ℝ) :=
      Real.rpow_le_rpow hb0.le hb3 (by norm_num)
    have h3 : (3 : ℝ) ^ (3.5 : ℝ) ≤ 47 := by
      have e1 : ((3 : ℝ) ^ (3.5 : ℝ)) ^ (2 : ℕ) = (3 : ℝ) ^ (7 : ℕ) := by
        rw [← Real.rpow_natCast ((3 : ℝ) ^ (3.5 : ℝ)) 2, ← Real.rpow_mul (by norm_num)]
        rw [show (3.5 : ℝ) * ((2 : ℕ) : ℝ) = ((7 : ℕ) : ℝ) by norm_num, Real.rpow_natCast]
      have e2 : ((3 : ℝ) ^ (3.5 : ℝ)) ^ (2 : ℕ) ≤ 47 ^ (2 : ℕ) := by
        rw [e1]
        norm_num
      exact le_of_pow_le_pow_left (by norm_num) (by norm_num) e2
    linarith
  have hbh : b ^ (1e-6 : ℝ) = Real.exp (Real.log b * 1e-6) := Real.rpow_def_of_pos hb0 _
  have hyabs : |Real.log b * 1e-6| ≤ 1 := by
    rw [abs_of_nonneg (by positivity)]
    nlinarith
  have hexp2 : |Real.exp (Real.log b * 1e-6) - 1 - Real.log b * 1e-6|
      ≤ (Real.log b * 1e-6) ^ 2 :=
    Real.abs_exp_sub_one_sub_id_le hyabs
  have hrw : (b ^ (x + 1e-6) - b ^ x) / 1e-6 - get_slope b x
      = b ^ x * ((Real.exp (Real.log b * 1e-6) - 1 - Real.log b * 1e-6) / 1e-6) := by
    rw [Real.rpow_add hb0, hbh]
    unfold get_slope
    field_simp
    ring
  have hdiff : |(b ^ (x + 1e-6) - b ^ x) / 1e-6 - get_slope b x|
      ≤ 47 * ((1.1e-6 : ℝ) ^ 2 / 1e-6) := by
    rw [hrw, abs_mul, abs_div]
    have h1 : |b ^ x| ≤ 47 := by
      rw [abs_of_pos hbx0]
      exact hbx47
    have h2 : |Real.exp (Real.log b * 1e-6) - 1 - Real.log b * 1e-6| ≤ (1.1e-6 : ℝ) ^ 2 := by
      refine hexp2.trans ?_
      nlinarith
    have h3 : |(1e-6 : ℝ)| = 1e-6 := by
      rw [abs_of_pos]
      norm_num
    rw [h3]
    have h4 : |Real.exp (Real.log b * 1e-6) - 1 - Real.log b * 1e-6| / (1e-6 : ℝ)
        ≤ (1.1e-6 : ℝ) ^ 2 / 1e-6 :=
      (div_le_div_right (by norm_num)).mpr h2
    exact mul_le_mul h1 h4 (by positivity) (by norm_num)
  show |Real.arctan ((b ^ (x + 1e-6) - b ^ x) / 1e-6) - Real.arctan (get_slope b x)| < 1e-4
  refine lt_of_le_of_lt ((abs_arctan_sub_arctan_le _ _).trans hdiff) ?_
  norm_num

/-- Witness for the amended C4 at base `2`, `x = 0`. -/
theorem slope_angle_close_to_analytic_witness :
    |get_slope_angle (fun y => (2 : ℝ) ^ y) 0 - Real.arctan (get_slope 2 0)| < 1e-4 :=
  slope_angle_close_to_analytic 2 0 (Or.inl rfl) (by norm_num) (by norm_num)

end EulerViz
